import Mathlib

/-!
Verification of the record store of a server-inventory program
(`data_manager.py`).  A `Server` record has four string fields; the
store is an ordered list of records persisted as a JSON file.  We embed
the store operations (`add_server`, `search_servers`, `delete_server`,
`export_to_csv`, `get_servers`) shallowly: the list of records stands
for the decoded JSON array, a `FileState` models the backing file, and
Python exceptions become `Except` errors.
-/

namespace Inventory

/-- One server record, mirroring the JSON objects handled by
`data_manager.py`: four required string fields. -/
structure Server where
  product_name : String
  serial_number : String
  rack_location : String
  username : String
deriving DecidableEq, Repr

/-- The error kinds raised by the data layer (`ValueError` and re-raised
`Exception`s in `data_manager.py`, named as in the design spec). -/
inductive StoreError where
  | DuplicateKey
  | NotFound
  | EmptyStore
  | StorageIOError
deriving DecidableEq, Repr

/-- Python's `str.lower()`: canonicalize every character to lower case.
Extensionally the same function as `String.toLower`, written over the
character list so that it evaluates by kernel reduction. -/
def strLower (s : String) : String :=
  ⟨s.data.map Char.toLower⟩

/-- `DataManager.add_server`: raise `DuplicateKey` when any existing
record's serial number matches case-insensitively, else append and save.
Mirrors lines 28-36 of `data_manager.py`. -/
def add_server (servers : List Server) (server : Server) : Except StoreError (List Server) :=
  if servers.any (fun s => strLower s.serial_number == strLower server.serial_number)
  then .error .DuplicateKey
  else .ok (servers ++ [server])

/-- Boolean substring test on lists of characters: Python's
`needle in hay`.  `listStartsWith hay needle` checks a match at the
current position. -/
def listStartsWith : List Char → List Char → Bool
  | _, [] => true
  | [], _ :: _ => false
  | h :: hs, n :: ns => h == n && listStartsWith hs ns

/-- `substrB hay needle` is Python's `needle in hay` on decoded
character lists. -/
def substrB : List Char → List Char → Bool
  | [], needle => needle.isEmpty
  | h :: hs, needle => listStartsWith (h :: hs) needle || substrB hs needle

/-- The match predicate of `DataManager.search_servers` (lines 42-48):
the lower-cased term occurs in one of the four lower-cased fields. -/
def serverMatches (t : String) (server : Server) : Bool :=
  substrB (strLower server.product_name).toList t.toList ||
  substrB (strLower server.serial_number).toList t.toList ||
  substrB (strLower server.rack_location).toList t.toList ||
  substrB (strLower server.username).toList t.toList

/-- `DataManager.search_servers` (lines 38-48): lower the term, keep the
records matching on any of the four fields. -/
def search_servers (servers : List Server) (search_term : String) : List Server :=
  servers.filter (serverMatches (strLower search_term))

/-- `DataManager.delete_server` (lines 57-69): drop every record whose
lower-cased serial number equals the lower-cased argument; raise
`NotFound` when the filtered list has the same length as the original. -/
def delete_server (servers : List Server) (serial_number : String) : Except StoreError (List Server) :=
  let sn := strLower serial_number
  let filtered := servers.filter (fun s => strLower s.serial_number != sn)
  if filtered.length = servers.length then .error .NotFound
  else .ok filtered

/-- `delete_server` as a state transition on the stored list: on error no
save happens, so the store is unchanged (the `ValueError` is raised
before `_save_servers` on line 68). -/
def delete_run (servers : List Server) (serial_number : String) :
    Except StoreError Unit × List Server :=
  match delete_server servers serial_number with
  | .error e => (.error e, servers)
  | .ok filtered => (.ok (), filtered)

/-- The fixed CSV header of `DataManager.export_to_csv` (line 87). -/
def csvHeaders : List String := ["Product Name", "Serial Number", "Rack Location", "Username"]

/-- The CSV row written for one record (lines 95-100). -/
def serverRow (s : Server) : List String :=
  [s.product_name, s.serial_number, s.rack_location, s.username]

/-- `DataManager.export_to_csv` (lines 71-103), with the written file
modelled as its list of rows: raise `EmptyStore` (``"No servers found to
export"``) when the store is empty — before any file is created —
else write the header row followed by one row per record in store
order. -/
def export_to_csv (servers : List Server) : Except StoreError (List (List String)) :=
  if servers.isEmpty then .error .EmptyStore
  else .ok (csvHeaders :: servers.map serverRow)

/-- The backing JSON file: absent, unreadable (permissions or other I/O
failure), or present with contents that either decode to a record list
or fail to decode (an empty file also fails JSON decoding). -/
inductive FileState where
  | missing
  | unreadable
  | content (decoded : Option (List Server))
deriving DecidableEq

/-- `DataManager.ensure_file_exists` (lines 14-17): create the file with
an empty JSON array when it is absent. -/
def ensure_file_exists : FileState → FileState
  | .missing => .content (some [])
  | fs => fs

/-- `DataManager.get_servers` (lines 19-26): return the decoded records;
a `json.JSONDecodeError` yields `[]`; any other exception (a missing or
unreadable file) is re-raised as a storage error. -/
def get_servers : FileState → Except StoreError (List Server)
  | .missing => .error .StorageIOError
  | .unreadable => .error .StorageIOError
  | .content none => .ok []
  | .content (some servers) => .ok servers

/-- The spec's `load()`: the constructor runs `ensure_file_exists`, after
which records are read with `get_servers`. -/
def load (fs : FileState) : Except StoreError (List Server) :=
  get_servers (ensure_file_exists fs)

/-- `DataManager._save_servers` (lines 50-55) modelled on file states: a
successful save replaces the file contents with the serialized list
(which decodes back to the same list). -/
def save_servers (servers : List Server) : FileState :=
  .content (some servers)

/-- `add_server` at the file level: `get_servers`, duplicate check, then
`_save_servers` of the appended list. -/
def add_file (fs : FileState) (server : Server) : Except StoreError FileState :=
  match get_servers fs with
  | .error e => .error e
  | .ok servers =>
    match add_server servers server with
    | .error e => .error e
    | .ok appended => .ok (save_servers appended)

/-- The lower-cased serial numbers of a store, in order. -/
def lowerSerials (servers : List Server) : List String :=
  servers.map (fun s => strLower s.serial_number)

/-- The store invariant: no two records share a case-insensitively-equal
serial number. -/
def serialsUnique (servers : List Server) : Prop :=
  (lowerSerials servers).Nodup

instance (servers : List Server) : Decidable (serialsUnique servers) :=
  inferInstanceAs (Decidable (lowerSerials servers).Nodup)

/-- Store states reachable from the empty store by successful `add` and
`delete` operations. -/
inductive Reachable : List Server → Prop
  | empty : Reachable []
  | add {s s' : List Server} {r : Server} :
      Reachable s → add_server s r = .ok s' → Reachable s'
  | del {s s' : List Server} {k : String} :
      Reachable s → delete_server s k = .ok s' → Reachable s'

/-- The spec's search predicate: the lower-cased term occurs as a
contiguous substring of one of the four lower-cased fields. -/
def matchesSpec (t : String) (s : Server) : Prop :=
  (strLower t).toList <:+: (strLower s.product_name).toList ∨
  (strLower t).toList <:+: (strLower s.serial_number).toList ∨
  (strLower t).toList <:+: (strLower s.rack_location).toList ∨
  (strLower t).toList <:+: (strLower s.username).toList

instance (t : String) (s : Server) : Decidable (matchesSpec t s) := by
  unfold matchesSpec
  infer_instance

/-- A demonstration record used in witnesses. -/
def demoServer : Server := ⟨"Dell R740", "SN1", "Rack-A1", "admin"⟩

/-- A record whose serial number clashes with `demoServer` up to case. -/
def demoClash : Server := ⟨"HP DL380", "sn1", "Rack-B2", "bob"⟩

/-- A second, non-clashing demonstration record. -/
def demoServer2 : Server := ⟨"HP DL380", "SN2", "Rack-B2", "bob"⟩

/-- A store violating the uniqueness invariant: its two records share
the serial number `SN9` up to case.  Such a store is not reachable
through `add`, but can arise from a hand-edited backing file. -/
def twinStore : List Server := [⟨"P1", "SN9", "R1", "u1"⟩, ⟨"P2", "sn9", "R2", "u2"⟩]

/-- Another invariant-violating store, with a third, unrelated record. -/
def twinStoreB : List Server :=
  [⟨"A1", "K1", "R1", "ua"⟩, ⟨"A2", "k1", "R2", "ub"⟩, ⟨"A3", "Z9", "R3", "uc"⟩]

/-! ### Helper lemmas about list containment -/

theorem isPreOfNil (l : List Char) : [] <+: l := ⟨l, rfl⟩

theorem isPreNilIff (l : List Char) : l <+: [] ↔ l = [] := by
  constructor
  · rintro ⟨t, ht⟩
    exact (List.append_eq_nil.mp ht).1
  · rintro rfl
    exact ⟨[], rfl⟩

theorem isPreConsIff (a b : Char) (l₁ l₂ : List Char) :
    a :: l₁ <+: b :: l₂ ↔ a = b ∧ l₁ <+: l₂ := by
  constructor
  · rintro ⟨t, ht⟩
    injection ht with h1 h2
    exact ⟨h1, t, h2⟩
  · rintro ⟨rfl, t, ht⟩
    exact ⟨t, by rw [List.cons_append, ht]⟩

theorem isInfNilIff (l : List Char) : l <:+: [] ↔ l = [] := by
  constructor
  · rintro ⟨s, t, h⟩
    have h1 := List.append_eq_nil.mp h
    exact (List.append_eq_nil.mp h1.1).2
  · rintro rfl
    exact ⟨[], [], rfl⟩

theorem isInfConsIff (a : Char) (l₁ l₂ : List Char) :
    l₁ <:+: a :: l₂ ↔ l₁ <+: a :: l₂ ∨ l₁ <:+: l₂ := by
  constructor
  · rintro ⟨s, t, h⟩
    cases s with
    | nil => exact Or.inl ⟨t, h⟩
    | cons x xs =>
      injection h with h1 h2
      exact Or.inr ⟨xs, t, h2⟩
  · rintro (⟨t, ht⟩ | ⟨s, t, h⟩)
    · exact ⟨[], t, ht⟩
    · exact ⟨a :: s, t, by rw [← h]; rfl⟩

/-- `listStartsWith hay needle` decides whether `needle` occurs at the
start of `hay`. -/
theorem listStartsWith_iff (hay needle : List Char) :
    listStartsWith hay needle = true ↔ needle <+: hay := by
  induction hay generalizing needle with
  | nil =>
    cases needle with
    | nil => exact iff_of_true rfl (isPreOfNil [])
    | cons n ns =>
      show false = true ↔ _
      rw [isPreNilIff]
      simp
  | cons h hs ih =>
    cases needle with
    | nil => exact iff_of_true rfl (isPreOfNil (h :: hs))
    | cons n ns =>
      show (h == n && listStartsWith hs ns) = true ↔ _
      rw [Bool.and_eq_true, beq_iff_eq, ih, isPreConsIff]
      exact ⟨fun ⟨a, b⟩ => ⟨a.symm, b⟩, fun ⟨a, b⟩ => ⟨a.symm, b⟩⟩

/-- `substrB` decides containment: Python's `needle in hay` holds exactly
when `needle` is a contiguous sublist of `hay`. -/
theorem substrB_iff (hay needle : List Char) :
    substrB hay needle = true ↔ needle <:+: hay := by
  induction hay with
  | nil =>
    show needle.isEmpty = true ↔ _
    rw [isInfNilIff, List.isEmpty_iff]
  | cons h hs ih =>
    show (listStartsWith (h :: hs) needle || substrB hs needle) = true ↔ _
    rw [isInfConsIff, Bool.or_eq_true, listStartsWith_iff, ih]

/-- The empty needle is contained in every haystack. -/
theorem substrB_nil_needle (hay : List Char) : substrB hay [] = true :=
  (substrB_iff hay []).mpr ⟨[], hay, rfl⟩

/-! ### Characterizations of the store operations -/

/-- `add_server` fails with `DuplicateKey` exactly when some stored
record's serial number equals the new one case-insensitively. -/
theorem add_server_error_iff (servers : List Server) (r : Server) :
    add_server servers r = .error .DuplicateKey ↔
      ∃ s ∈ servers, strLower s.serial_number = strLower r.serial_number := by
  unfold add_server
  by_cases h : servers.any (fun s => strLower s.serial_number == strLower r.serial_number) = true
  · rw [if_pos h]
    simp only [List.any_eq_true, beq_iff_eq] at h
    exact iff_of_true rfl h
  · rw [if_neg h]
    simp only [List.any_eq_true, beq_iff_eq] at h
    exact iff_of_false (by simp) h

/-- `add_server` succeeds exactly when no stored record's serial number
matches case-insensitively, and then the result is the old store with
the new record appended. -/
theorem add_server_ok_iff (servers : List Server) (r : Server) (res : List Server) :
    add_server servers r = .ok res ↔
      (∀ s ∈ servers, strLower s.serial_number ≠ strLower r.serial_number) ∧
      res = servers ++ [r] := by
  unfold add_server
  by_cases h : servers.any (fun s => strLower s.serial_number == strLower r.serial_number) = true
  · rw [if_pos h]
    simp only [List.any_eq_true, beq_iff_eq] at h
    obtain ⟨s, hs, he⟩ := h
    exact iff_of_false (by simp) (fun ⟨hall, _⟩ => hall s hs he)
  · rw [if_neg h]
    simp only [List.any_eq_true, beq_iff_eq] at h
    push_neg at h
    constructor
    · intro hok
      exact ⟨h, (Except.ok.inj hok).symm⟩
    · rintro ⟨-, rfl⟩
      rfl

/-- The `let`-free unfolding of `delete_server`. -/
theorem delete_server_eq (servers : List Server) (k : String) :
    delete_server servers k =
      if (servers.filter (fun s => strLower s.serial_number != strLower k)).length =
          servers.length
      then .error .NotFound
      else .ok (servers.filter (fun s => strLower s.serial_number != strLower k)) := rfl

/-- A filter keeps the full length exactly when it keeps every element. -/
theorem filter_length_eq_iff {α : Type} {p : α → Bool} (l : List α) :
    (l.filter p).length = l.length ↔ ∀ a ∈ l, p a = true := by
  constructor
  · intro h
    exact List.filter_eq_self.mp ((List.filter_sublist l).eq_of_length h)
  · intro h
    rw [List.filter_eq_self.mpr h]

/-- `delete_server` fails with `NotFound` exactly when no stored record's
serial number equals the key case-insensitively. -/
theorem delete_server_error_iff (servers : List Server) (k : String) :
    delete_server servers k = .error .NotFound ↔
      ∀ s ∈ servers, strLower s.serial_number ≠ strLower k := by
  rw [delete_server_eq]
  by_cases h : (servers.filter (fun s => strLower s.serial_number != strLower k)).length =
      servers.length
  · rw [if_pos h]
    rw [filter_length_eq_iff] at h
    refine iff_of_true rfl fun s hs => ?_
    have := h s hs
    rwa [bne_iff_ne] at this
  · rw [if_neg h]
    refine iff_of_false (by simp) fun hall => h ?_
    rw [filter_length_eq_iff]
    intro s hs
    exact bne_iff_ne.mpr (hall s hs)

/-- `delete_server` succeeds exactly when some stored record's serial
number equals the key case-insensitively, and then the result is the
store with every such record filtered out. -/
theorem delete_server_ok_iff (servers : List Server) (k : String) (res : List Server) :
    delete_server servers k = .ok res ↔
      (∃ s ∈ servers, strLower s.serial_number = strLower k) ∧
      res = servers.filter (fun s => strLower s.serial_number != strLower k) := by
  rw [delete_server_eq]
  by_cases h : (servers.filter (fun s => strLower s.serial_number != strLower k)).length =
      servers.length
  · rw [if_pos h]
    rw [filter_length_eq_iff] at h
    refine iff_of_false (by simp) ?_
    rintro ⟨⟨s, hs, he⟩, -⟩
    have := h s hs
    rw [bne_iff_ne] at this
    exact this he
  · rw [if_neg h]
    constructor
    · intro hok
      refine ⟨?_, (Except.ok.inj hok).symm⟩
      by_contra hne
      push_neg at hne
      exact h ((filter_length_eq_iff servers).mpr fun s hs => bne_iff_ne.mpr (hne s hs))
    · rintro ⟨-, rfl⟩
      rfl

/-- Splitting a store's length into records kept and records removed by a
case-insensitive serial-number match. -/
theorem countP_ne_add_countP_eq (servers : List Server) (key : String) :
    servers.countP (fun s => strLower s.serial_number != key) +
      servers.countP (fun s => strLower s.serial_number == key) = servers.length := by
  induction servers with
  | nil => rfl
  | cons a t ih =>
    rw [List.countP_cons, List.countP_cons, List.length_cons]
    by_cases h : strLower a.serial_number = key <;> simp [h] <;> omega

/-- In a store satisfying the uniqueness invariant, a present
(case-insensitive) serial number is carried by exactly one record. -/
theorem countP_serial_eq_one {servers : List Server} {key : String}
    (hnd : serialsUnique servers)
    (hmem : ∃ s ∈ servers, strLower s.serial_number = key) :
    servers.countP (fun s => strLower s.serial_number == key) = 1 := by
  induction servers with
  | nil => simp at hmem
  | cons a t ih =>
    rw [serialsUnique, lowerSerials, List.map_cons, List.nodup_cons] at hnd
    obtain ⟨hna, hnd2⟩ := hnd
    rw [List.countP_cons]
    by_cases ha : strLower a.serial_number = key
    · have hz : t.countP (fun s => strLower s.serial_number == key) = 0 := by
        rw [List.countP_eq_zero]
        intro s hs hbeq
        rw [beq_iff_eq] at hbeq
        exact hna (ha ▸ hbeq ▸ List.mem_map_of_mem (fun s => strLower s.serial_number) hs)
      simp [hz, ha]
    · have hmem2 : ∃ s ∈ t, strLower s.serial_number = key := by
        obtain ⟨s, hs, he⟩ := hmem
        cases hs with
        | head => exact absurd he ha
        | tail _ h2 => exact ⟨s, h2, he⟩
      rw [ih hnd2 hmem2]
      simp [ha]

/-- The Boolean match test of the code decides the spec's search
predicate. -/
theorem serverMatches_iff (t : String) (s : Server) :
    serverMatches (strLower t) s = true ↔ matchesSpec t s := by
  unfold serverMatches matchesSpec
  simp only [Bool.or_eq_true, substrB_iff]
  tauto

/-! ### The claims -/

/-- C1: every store state reachable from the empty store by `add` and
`delete` operations satisfies the invariant that no two records share a
case-insensitively-equal serial number; both operations preserve it. -/
theorem c1_reachable_serials_unique {s : List Server} (h : Reachable s) :
    serialsUnique s := by
  induction h with
  | empty => exact List.nodup_nil
  | add _ hok ih =>
    obtain ⟨hfresh, rfl⟩ := (add_server_ok_iff _ _ _).mp hok
    show ((_ ++ [_]).map _).Nodup
    rw [List.map_append, List.nodup_append]
    refine ⟨ih, List.nodup_singleton _, ?_⟩
    intro x hx hy
    obtain ⟨a2, ha2, rfl⟩ := List.mem_map.mp hx
    rw [List.map_singleton, List.mem_singleton] at hy
    exact hfresh a2 ha2 hy
  | del _ hok ih =>
    obtain ⟨-, rfl⟩ := (delete_server_ok_iff _ _ _).mp hok
    exact List.Nodup.sublist (List.Sublist.map _ (List.filter_sublist _)) ih

/-- Witness for C1 at a concrete one-step derivation. -/
theorem c1_witness : serialsUnique [demoServer] :=
  c1_reachable_serials_unique (@Reachable.add [] [demoServer] demoServer Reachable.empty rfl)

/-- C2: `add` fails with `DuplicateKey` iff some existing record's serial
number equals the new record's case-insensitively; otherwise it returns
the prior records unchanged, in order, with the new record appended. -/
theorem c2_add_duplicate_iff (servers : List Server) (r : Server) :
    (add_server servers r = .error .DuplicateKey ↔
      ∃ s ∈ servers, strLower s.serial_number = strLower r.serial_number) ∧
    ((¬∃ s ∈ servers, strLower s.serial_number = strLower r.serial_number) →
      add_server servers r = .ok (servers ++ [r])) := by
  refine ⟨add_server_error_iff servers r, fun hne => ?_⟩
  refine (add_server_ok_iff servers r (servers ++ [r])).mpr ⟨?_, rfl⟩
  intro s hs he
  exact hne ⟨s, hs, he⟩

/-- Witness for C2: a record whose serial number differs only by case is
rejected, and adding to the empty store appends. -/
theorem c2_witness :
    add_server [demoServer] demoClash = .error .DuplicateKey ∧
    add_server [] demoServer = .ok [demoServer] :=
  ⟨(c2_add_duplicate_iff [demoServer] demoClash).1.mpr ⟨demoServer, by decide⟩,
   (c2_add_duplicate_iff [] demoServer).2 (by decide)⟩

/-- Counterexample to C3 as stated: over a store violating the
uniqueness invariant (two records carrying serial `SN9` up to case),
`delete` succeeds but removes both records: the size drops from 2 to 0,
not by one. -/
theorem c3_counterexample :
    (∃ s ∈ twinStore, strLower s.serial_number = strLower "SN9") ∧
    delete_server twinStore "SN9" = .ok [] ∧
    twinStore.length = 2 :=
  ⟨by decide, rfl, rfl⟩

/-- C3 (amended): over a store satisfying the uniqueness invariant,
deleting a present (case-insensitive) serial number succeeds and removes
exactly one record: the size decreases by exactly one. -/
theorem c3_delete_present_removes_one (servers : List Server) (k : String)
    (hu : serialsUnique servers)
    (hex : ∃ s ∈ servers, strLower s.serial_number = strLower k) :
    ∃ res, delete_server servers k = .ok res ∧ res.length + 1 = servers.length := by
  refine ⟨_, (delete_server_ok_iff servers k _).mpr ⟨hex, rfl⟩, ?_⟩
  rw [← List.countP_eq_length_filter]
  have h1 := countP_ne_add_countP_eq servers (strLower k)
  have h2 := countP_serial_eq_one hu hex
  omega

/-- Witness for the amended C3 on a two-record store. -/
theorem c3_witness :
    ∃ res, delete_server [demoServer, demoServer2] "sn1" = .ok res ∧
      res.length + 1 = [demoServer, demoServer2].length :=
  c3_delete_present_removes_one [demoServer, demoServer2] "sn1" (by decide)
    ⟨demoServer, by decide⟩

/-- C4: when no record's serial number equals the key case-insensitively,
`delete` fails with `NotFound` and the store afterwards equals the store
before: the error is raised before any rewrite. -/
theorem c4_delete_absent_unchanged (servers : List Server) (k : String)
    (h : ∀ s ∈ servers, strLower s.serial_number ≠ strLower k) :
    delete_run servers k = (.error .NotFound, servers) := by
  unfold delete_run
  rw [(delete_server_error_iff servers k).mpr h]

/-- Witness for C4: deleting an absent key from a one-record store. -/
theorem c4_witness :
    delete_run [demoServer] "SN2" = (.error .NotFound, [demoServer]) :=
  c4_delete_absent_unchanged [demoServer] "SN2" (by decide)

/-- C5: `search` returns exactly the records one of whose four fields
contains the lower-cased term as a substring — it is the filter of the
store by the spec's predicate, hence keeps the original relative order
(a sublist of the store). -/
theorem c5_search_spec (servers : List Server) (t : String) :
    search_servers servers t = servers.filter (fun s => decide (matchesSpec t s)) ∧
    (search_servers servers t).Sublist servers := by
  refine ⟨?_, List.filter_sublist _⟩
  unfold search_servers
  apply List.filter_congr
  intro s _
  by_cases h : matchesSpec t s
  · rw [decide_eq_true h]
    exact (serverMatches_iff t s).mpr h
  · rw [decide_eq_false h]
    exact Bool.eq_false_iff.mpr fun hc => h ((serverMatches_iff t s).mp hc)

/-- C6: `load` yields the empty record list when the backing file is
missing or its contents fail to decode as JSON (an empty file included),
and a storage error is raised exactly for the remaining I/O failures. -/
theorem c6_load_spec (fs : FileState) :
    ((fs = .missing ∨ fs = .content none) → load fs = .ok []) ∧
    (load fs = .error .StorageIOError ↔ fs = .unreadable) := by
  cases fs with
  | missing =>
    exact ⟨fun _ => rfl, iff_of_false (by simp [load, ensure_file_exists, get_servers]) (by simp)⟩
  | unreadable =>
    refine ⟨?_, iff_of_true rfl rfl⟩
    rintro (h | h) <;> simp at h
  | content d =>
    cases d with
    | none =>
      exact ⟨fun _ => rfl,
        iff_of_false (by simp [load, ensure_file_exists, get_servers]) (by simp)⟩
    | some l =>
      refine ⟨?_, iff_of_false (by simp [load, ensure_file_exists, get_servers]) (by simp)⟩
      rintro (h | h) <;> simp at h

/-- Witness for C6: a missing file and an undecodable file both load as
the empty store. -/
theorem c6_witness :
    load .missing = .ok [] ∧ load (.content none) = .ok [] :=
  ⟨(c6_load_spec .missing).1 (Or.inl rfl), (c6_load_spec (.content none)).1 (Or.inr rfl)⟩

/-- C7: exporting fails with `EmptyStore` exactly on the empty store (and
then produces no output); otherwise the CSV is the fixed header — whose
comma-separated rendering is exactly
`Product Name,Serial Number,Rack Location,Username` — followed by one
row per record in store order, so the row count is the record count plus
one. -/
theorem c7_export_csv_spec (servers : List Server) :
    (export_to_csv servers = .error .EmptyStore ↔ servers = []) ∧
    (servers ≠ [] → ∃ rows, export_to_csv servers = .ok rows ∧
      rows.length = servers.length + 1 ∧
      rows.head? = some csvHeaders ∧
      rows.tail = servers.map serverRow ∧
      String.intercalate "," csvHeaders =
        "Product Name,Serial Number,Rack Location,Username") := by
  constructor
  · unfold export_to_csv
    by_cases h : servers.isEmpty
    · rw [if_pos h]
      exact iff_of_true rfl (List.isEmpty_iff.mp h)
    · rw [if_neg h]
      refine iff_of_false (by simp) fun he => h ?_
      rw [he]
      rfl
  · intro hne
    refine ⟨csvHeaders :: servers.map serverRow, ?_, by simp, rfl, rfl, by decide⟩
    unfold export_to_csv
    have h : ¬(servers.isEmpty = true) := fun h => hne (List.isEmpty_iff.mp h)
    rw [if_neg h]

/-- Witness for C7: the empty store is rejected; a one-record store
yields a two-row CSV. -/
theorem c7_witness :
    export_to_csv [] = .error .EmptyStore ∧
    (∃ rows, export_to_csv [demoServer] = .ok rows ∧
      rows.length = [demoServer].length + 1 ∧
      rows.head? = some csvHeaders ∧
      rows.tail = [demoServer].map serverRow ∧
      String.intercalate "," csvHeaders =
        "Product Name,Serial Number,Rack Location,Username") :=
  ⟨(c7_export_csv_spec []).1.mpr rfl, (c7_export_csv_spec [demoServer]).2 (by decide)⟩

/-- C8: on a readable store holding records `s`, adding a fresh record
`r` rewrites the whole store, and a subsequent load returns exactly `s`
with `r` appended: all prior records present, unchanged, in order. -/
theorem c8_add_then_load (fs : FileState) (s : List Server) (r : Server)
    (hread : get_servers fs = .ok s)
    (hfresh : ∀ x ∈ s, strLower x.serial_number ≠ strLower r.serial_number) :
    ∃ fs2, add_file fs r = .ok fs2 ∧ load fs2 = .ok (s ++ [r]) := by
  have hok : add_server s r = .ok (s ++ [r]) :=
    (add_server_ok_iff s r (s ++ [r])).mpr ⟨hfresh, rfl⟩
  refine ⟨save_servers (s ++ [r]), ?_, rfl⟩
  unfold add_file
  rw [hread]
  show (match add_server s r with
    | Except.error e => Except.error e
    | Except.ok appended => Except.ok (save_servers appended)) =
      Except.ok (save_servers (s ++ [r]))
  rw [hok]

/-- Witness for C8 starting from a store holding one record. -/
theorem c8_witness :
    ∃ fs2, add_file (.content (some [demoServer])) demoServer2 = .ok fs2 ∧
      load fs2 = .ok ([demoServer] ++ [demoServer2]) :=
  c8_add_then_load (.content (some [demoServer])) [demoServer] demoServer2 rfl (by decide)

/-- C9: searching with the empty term keeps every record, in order: the
empty string is a substring of every field. -/
theorem c9_search_empty_term (servers : List Server) :
    search_servers servers "" = servers := by
  unfold search_servers
  apply List.filter_eq_self.mpr
  intro s _
  have h0 : (strLower "").data = ([] : List Char) := rfl
  simp [serverMatches, h0, substrB_nil_needle]

/-- C10: whenever `delete` succeeds it removes every record whose serial
number equals the key case-insensitively — the survivors are exactly
the non-matching records, in order, so one call removes as many records
as match (possibly more than one). -/
theorem c10_delete_removes_every_match (servers : List Server) (k : String) (res : List Server)
    (h : delete_server servers k = .ok res) :
    res.Sublist servers ∧
    (∀ s ∈ res, strLower s.serial_number ≠ strLower k) ∧
    (∀ s ∈ servers, strLower s.serial_number ≠ strLower k → s ∈ res) ∧
    res.length + servers.countP (fun s => strLower s.serial_number == strLower k) =
      servers.length := by
  obtain ⟨-, rfl⟩ := (delete_server_ok_iff servers k res).mp h
  refine ⟨List.filter_sublist _, ?_, ?_, ?_⟩
  · intro s hs
    have h2 := (List.mem_filter.mp hs).2
    rwa [bne_iff_ne] at h2
  · intro s hs hne
    exact List.mem_filter.mpr ⟨hs, bne_iff_ne.mpr hne⟩
  · rw [← List.countP_eq_length_filter]
    exact countP_ne_add_countP_eq servers (strLower k)

/-- Witness for C10: one delete call removes the two records sharing the
key up to case and keeps the unrelated one. -/
theorem c10_witness :
    ([⟨"A3", "Z9", "R3", "uc"⟩] : List Server).Sublist twinStoreB ∧
    (∀ s ∈ ([⟨"A3", "Z9", "R3", "uc"⟩] : List Server),
      strLower s.serial_number ≠ strLower "K1") ∧
    (∀ s ∈ twinStoreB, strLower s.serial_number ≠ strLower "K1" →
      s ∈ ([⟨"A3", "Z9", "R3", "uc"⟩] : List Server)) ∧
    ([⟨"A3", "Z9", "R3", "uc"⟩] : List Server).length +
      twinStoreB.countP (fun s => strLower s.serial_number == strLower "K1") =
      twinStoreB.length :=
  c10_delete_removes_every_match twinStoreB "K1" [⟨"A3", "Z9", "R3", "uc"⟩] rfl

end Inventory
